import Mathlib

/-!
Verification of the core of the Trading-Bot backtesting engine.

Shallow embedding of the Python sources:
* `backend/backtest/portfolio.py`          → `Portfolio`, `execute_trade`, `buyMarket`, `sellMarket`
* `backend/backtest/backtest_engine.py`    → `run_backtest`, `simGrid`, `processTick`
* `backend/backtest/performance_metrics.py`→ `calc_return_metrics`
* `backend/strategies/buy_and_hold.py`     → `bh_set_params`, `bh_generate_signals`
* `backend/strategies/DCA_strategy.py`     → `dca_set_params`
* `backend/strategies/RSI_strategy.py`     → `rsi_set_params`, `rsi_generate_signals`
* `backend/data/data_manager.py`           → `get_historical_data`

Python floats are modelled by `ℚ` (all the claims under study are about
exact small decimal arithmetic, control flow and data-structure contents,
not float rounding), pandas timestamps by `ℤ` (epoch seconds), Python
dicts keyed by strings by insertion-ordered association lists, and Python
exceptions by `Except String`.
-/

deriving instance DecidableEq for Except

namespace TradingBot

abbrev Sym := String

/-- Python dict read `d[k]` restricted to first match (dict keys are unique,
so the first match is the entry). `none` models a missing key. -/
def dictGet (d : List (Sym × ℚ)) (k : Sym) : Option ℚ :=
  match d with
  | [] => none
  | (k1, v) :: rest => if k1 = k then some v else dictGet rest k

/-- Python dict write `d[k] = v`: replaces the value in place when the key
exists, appends the new entry at the end otherwise (insertion order). -/
def dictSet (d : List (Sym × ℚ)) (k : Sym) (v : ℚ) : List (Sym × ℚ) :=
  match d with
  | [] => [(k, v)]
  | (k1, v1) :: rest => if k1 = k then (k, v) :: rest else (k1, v1) :: dictSet rest k v

/-- Dict read with default 0, used for position quantities. -/
def dictGetD (d : List (Sym × ℚ)) (k : Sym) : ℚ :=
  (dictGet d k).getD 0

/-- `'k' in d` for a Python dict. -/
def dictContains (d : List (Sym × ℚ)) (k : Sym) : Bool :=
  (dictGet d k).isSome

/-- Order parameters: the portfolio only ever reads the keys `portion` and
`usdc_value` of `trade['params']`; other keys carried by strategy signals
(`stop_loss`, `duration`, `close_anyway`) are never read by `Portfolio`. -/
structure TradeParams where
  portion : Option ℚ
  usdc_value : Option ℚ
  deriving Repr, DecidableEq

/-- An order handed to `Portfolio.execute_trade`: the dict built in
`backtest_engine.run_backtest` with keys `type`, `symbol`, `timestamp`,
`params`. -/
structure Order where
  symbol : Sym
  timestamp : ℤ
  otype : String
  params : TradeParams
  deriving Repr, DecidableEq

/-- The dict returned by `_buy_market` / `_sell_market` on success and
appended to `self.trades` (its `executed` field is always `True`, so it is
not carried here). -/
structure TradeRec where
  timestamp : ℤ
  symbol : Sym
  side : String
  price : ℚ
  usd_value : ℚ
  commission : ℚ
  deriving Repr, DecidableEq

/-- One row of `Portfolio.graph_data`. -/
structure EquityPoint where
  timestamp : ℤ
  total_value : ℚ
  benchmark : ℚ
  deriving Repr, DecidableEq

/-- Mutable state of `Portfolio` (portfolio.py). `graph_data` is stored on
the portfolio exactly as in the source. -/
structure Portfolio where
  initial_capital : ℚ
  commission_rate : ℚ
  symbols : List Sym
  cash : ℚ
  positions : List (Sym × ℚ)
  benchmark_positions : List (Sym × ℚ)
  trades : List TradeRec
  graph : List EquityPoint
  total_commission : ℚ
  deriving Repr, DecidableEq

/-- `Portfolio.__init__`. -/
def initPortfolio (initial_capital commission_rate : ℚ) (paires : List Sym) : Portfolio :=
  { initial_capital := initial_capital
    commission_rate := commission_rate
    symbols := paires
    cash := initial_capital
    positions := []
    benchmark_positions := []
    trades := []
    graph := []
    total_commission := 0 }

/-- `self.market_data[symbol].loc[timestamp]['close']`: close-price lookup;
`none` models a pandas `KeyError` for a missing candle. -/
abbrev MarketData := Sym → ℤ → Option ℚ

/-- The USD notional computed at the top of `_buy_market`: `portion × cash`
when `portion` is in the params, else the explicit `usdc_value`, else 0. -/
def buyNotional (p : Portfolio) (params : TradeParams) : ℚ :=
  match params.portion with
  | some q => q * p.cash
  | none =>
    match params.usdc_value with
    | some v => v
    | none => 0

/-- `Portfolio._buy_market`.  Returns the updated portfolio and the trade
record to append (`none` = rejected, trade stays not-executed).  The
rejection test runs before the price lookup, exactly as in the source. -/
def buyMarket (md : MarketData) (p : Portfolio) (o : Order) :
    Except String (Portfolio × Option TradeRec) :=
  let usd_value := buyNotional p o.params
  if p.cash ≤ 5 ∨ p.cash < usd_value * (1 + p.commission_rate) ∨ usd_value ≤ 5 then
    Except.ok (p, none)
  else
    match md o.symbol o.timestamp with
    | none => Except.error "KeyError"
    | some price =>
      let quantity := usd_value / price
      let commission := usd_value * p.commission_rate
      let pos0 :=
        match dictGet p.positions o.symbol with
        | none => dictSet p.positions o.symbol 0
        | some _ => p.positions
      Except.ok
        ({ p with
            cash := p.cash - usd_value * (1 + p.commission_rate)
            positions := dictSet pos0 o.symbol (dictGetD pos0 o.symbol + quantity)
            total_commission := p.total_commission + commission },
         some ⟨o.timestamp, o.symbol, "buy", price, usd_value, commission⟩)

/-- `Portfolio._sell_market`.  The price lookup happens first; a missing
`portion` key is a Python `KeyError`.  Note that the source inserts a zero
entry for an unknown symbol even when it then rejects the order. -/
def sellMarket (md : MarketData) (p : Portfolio) (o : Order) :
    Except String (Portfolio × Option TradeRec) :=
  match md o.symbol o.timestamp with
  | none => Except.error "KeyError"
  | some price =>
    let p1 :=
      match dictGet p.positions o.symbol with
      | none => { p with positions := dictSet p.positions o.symbol 0 }
      | some _ => p
    match o.params.portion with
    | none => Except.error "KeyError"
    | some portion =>
      let held := dictGetD p1.positions o.symbol
      let quantity := held * portion
      let usd_value := quantity * price
      if held < quantity ∨ usd_value ≤ 5 then
        Except.ok (p1, none)
      else
        let commission := usd_value * p1.commission_rate
        Except.ok
          ({ p1 with
              cash := p1.cash + usd_value / (1 + p1.commission_rate)
              positions := dictSet p1.positions o.symbol (held - quantity)
              total_commission := p1.total_commission + commission },
           some ⟨o.timestamp, o.symbol, "sell", price, usd_value, commission⟩)

/-- `Portfolio.execute_trade`: dispatch on `trade['type']`; the returned
Bool is the final `executed` flag (`trade['executed']` is set to `False` up
front, so an unmatched type falls through with the state untouched); an
executed trade record is appended to `self.trades`; `_buy_limit`,
`_sell_limit` and `_oco` raise `NotImplementedError`. -/
def execute_trade (md : MarketData) (p : Portfolio) (o : Order) :
    Except String (Portfolio × Bool) :=
  if o.otype = "buy_market" then
    match buyMarket md p o with
    | Except.error e => Except.error e
    | Except.ok (p1, some r) => Except.ok ({ p1 with trades := p1.trades ++ [r] }, true)
    | Except.ok (p1, none) => Except.ok (p1, false)
  else if o.otype = "sell_market" then
    match sellMarket md p o with
    | Except.error e => Except.error e
    | Except.ok (p1, some r) => Except.ok ({ p1 with trades := p1.trades ++ [r] }, true)
    | Except.ok (p1, none) => Except.ok (p1, false)
  else if o.otype = "buy_limit" then Except.error "NotImplementedError"
  else if o.otype = "sell_limit" then Except.error "NotImplementedError"
  else if o.otype = "oco" then Except.error "NotImplementedError"
  else Except.ok (p, false)

/-- A sequence of `execute_trade` calls threaded through the portfolio
state; any raised exception aborts the sequence. -/
def runTrades (md : MarketData) (p : Portfolio) : List Order → Except String Portfolio
  | [] => Except.ok p
  | o :: rest =>
    match execute_trade md p o with
    | Except.error e => Except.error e
    | Except.ok (p1, _) => runTrades md p1 rest

theorem dictGet_dictSet_self (d : List (Sym × ℚ)) (k : Sym) (v : ℚ) :
    dictGet (dictSet d k v) k = some v := by
  induction d with
  | nil => simp [dictGet, dictSet]
  | cons hd tl ih =>
    by_cases h : hd.1 = k
    · simp [dictGet, dictSet, h]
    · simp [dictGet, dictSet, h, ih]

theorem dictGet_dictSet_ne (d : List (Sym × ℚ)) (k s : Sym) (v : ℚ) (h : s ≠ k) :
    dictGet (dictSet d k v) s = dictGet d s := by
  induction d with
  | nil => simp [dictGet, dictSet, Ne.symm h]
  | cons hd tl ih =>
    by_cases hk : hd.1 = k
    · simp [dictGet, dictSet, hk, Ne.symm h]
    · by_cases hs : hd.1 = s <;> simp [dictGet, dictSet, hk, hs, h, ih]

theorem dictGetD_dictSet_self (d : List (Sym × ℚ)) (k : Sym) (v : ℚ) :
    dictGetD (dictSet d k v) k = v := by
  simp [dictGetD, dictGet_dictSet_self]

/-- Claim C1: for a `buy_market` order the notional is `portion × cash`
(or the explicit `usdc_value` when `portion` is absent); `execute_trade`
rejects — returning the portfolio completely unchanged and the
not-executed flag, appending nothing — exactly when `cash ≤ 5`, or
`cash < notional × (1 + commission_rate)`, or `notional ≤ 5`; otherwise it
debits cash by `notional × (1 + commission_rate)`, credits the symbol's
position by `notional / price`, adds `notional × commission_rate` to the
cumulative commission, leaves the other positions alone and logs the
executed trade. -/
theorem buy_market_notional_and_rejection
    (md : MarketData) (p : Portfolio) (o : Order) (price : ℚ)
    (hty : o.otype = "buy_market")
    (hpx : md o.symbol o.timestamp = some price) :
    (∀ q, o.params.portion = some q → buyNotional p o.params = q * p.cash) ∧
    (∀ v, o.params.portion = none → o.params.usdc_value = some v →
      buyNotional p o.params = v) ∧
    ((p.cash ≤ 5 ∨ p.cash < buyNotional p o.params * (1 + p.commission_rate) ∨
        buyNotional p o.params ≤ 5) →
      execute_trade md p o = Except.ok (p, false)) ∧
    (¬ (p.cash ≤ 5 ∨ p.cash < buyNotional p o.params * (1 + p.commission_rate) ∨
        buyNotional p o.params ≤ 5) →
      ∃ p1, execute_trade md p o = Except.ok (p1, true) ∧
        p1.cash = p.cash - buyNotional p o.params * (1 + p.commission_rate) ∧
        dictGetD p1.positions o.symbol
          = dictGetD p.positions o.symbol + buyNotional p o.params / price ∧
        (∀ s, s ≠ o.symbol → dictGet p1.positions s = dictGet p.positions s) ∧
        p1.total_commission
          = p.total_commission + buyNotional p o.params * p.commission_rate ∧
        p1.trades = p.trades ++
          [⟨o.timestamp, o.symbol, "buy", price, buyNotional p o.params,
            buyNotional p o.params * p.commission_rate⟩]) := by
  refine ⟨?_, ?_, ?_, ?_⟩
  · intro q hq
    simp [buyNotional, hq]
  · intro v hq hv
    simp [buyNotional, hq, hv]
  · intro hrej
    simp only [execute_trade, hty, if_pos rfl, buyMarket]
    rw [if_pos hrej]
    simp
  · intro hrej
    rcases hd : dictGet p.positions o.symbol with _ | x
    · refine ⟨{ p with
          cash := p.cash - buyNotional p o.params * (1 + p.commission_rate)
          positions := dictSet (dictSet p.positions o.symbol 0) o.symbol
            (dictGetD (dictSet p.positions o.symbol 0) o.symbol
              + buyNotional p o.params / price)
          total_commission := p.total_commission
            + buyNotional p o.params * p.commission_rate
          trades := p.trades ++ [⟨o.timestamp, o.symbol, "buy", price,
            buyNotional p o.params, buyNotional p o.params * p.commission_rate⟩] },
        ?_, rfl, ?_, ?_, rfl, rfl⟩
      · simp only [execute_trade, hty, if_pos rfl, buyMarket]
        rw [if_neg hrej, hpx, hd]
        simp
      · simp [dictGetD_dictSet_self, dictGetD, hd, dictGet_dictSet_self]
      · intro s hs
        simp [dictGet_dictSet_ne _ _ _ _ hs]
    · refine ⟨{ p with
          cash := p.cash - buyNotional p o.params * (1 + p.commission_rate)
          positions := dictSet p.positions o.symbol
            (dictGetD p.positions o.symbol + buyNotional p o.params / price)
          total_commission := p.total_commission
            + buyNotional p o.params * p.commission_rate
          trades := p.trades ++ [⟨o.timestamp, o.symbol, "buy", price,
            buyNotional p o.params, buyNotional p o.params * p.commission_rate⟩] },
        ?_, rfl, ?_, ?_, rfl, rfl⟩
      · simp only [execute_trade, hty, if_pos rfl, buyMarket]
        rw [if_neg hrej, hpx, hd]
        simp
      · simp [dictGetD_dictSet_self]
      · intro s hs
        simp [dictGet_dictSet_ne _ _ _ _ hs]

def mdK : MarketData := fun _ _ => some 100

def pK : Portfolio := initPortfolio 1000 0 ["BTC"]

def oK : Order := ⟨"BTC", 0, "buy_market", ⟨some (1/2), none⟩⟩

theorem buy_market_notional_and_rejection_witness :
    ∃ p1, execute_trade mdK pK oK = Except.ok (p1, true) ∧
      p1.cash = pK.cash - buyNotional pK oK.params * (1 + pK.commission_rate) ∧
      dictGetD p1.positions oK.symbol
        = dictGetD pK.positions oK.symbol + buyNotional pK oK.params / 100 ∧
      (∀ s, s ≠ oK.symbol → dictGet p1.positions s = dictGet pK.positions s) ∧
      p1.total_commission
        = pK.total_commission + buyNotional pK oK.params * pK.commission_rate ∧
      p1.trades = pK.trades ++
        [⟨oK.timestamp, oK.symbol, "buy", 100, buyNotional pK oK.params,
          buyNotional pK oK.params * pK.commission_rate⟩] :=
  (buy_market_notional_and_rejection mdK pK oK 100 rfl rfl).2.2.2
    (by norm_num [pK, oK, initPortfolio, buyNotional])

/-- Claim C10: an order whose kind is none of the five declared kinds (in
particular the kinds `buy` and `sell` emitted by the RSI strategy) is a
silent no-op of `execute_trade`: no error, the not-executed flag, and the
portfolio — cash, positions, commission, trade log — returned unchanged. -/
theorem execute_trade_unknown_kind_noop
    (md : MarketData) (p : Portfolio) (o : Order)
    (h : o.otype ∉ ["buy_market", "sell_market", "buy_limit", "sell_limit", "oco"]) :
    execute_trade md p o = Except.ok (p, false) := by
  simp only [List.mem_cons, List.not_mem_nil, or_false, not_or] at h
  obtain ⟨h1, h2, h3, h4, h5⟩ := h
  simp [execute_trade, h1, h2, h3, h4, h5]

theorem execute_trade_unknown_kind_noop_witness :
    execute_trade mdK pK ⟨"BTC", 0, "buy", ⟨some 1, none⟩⟩ = Except.ok (pK, false) :=
  execute_trade_unknown_kind_noop mdK pK ⟨"BTC", 0, "buy", ⟨some 1, none⟩⟩ (by decide)

/-- The spec's portfolio invariant: cash never negative, no position
quantity negative. -/
def Invariant (p : Portfolio) : Prop :=
  0 ≤ p.cash ∧ ∀ s, 0 ≤ dictGetD p.positions s

/-- Environment assumption: every candle close price is positive. -/
def PricesPos (md : MarketData) : Prop :=
  ∀ s t q, md s t = some q → 0 < q

theorem dictGetD_dictSet_nonneg (d : List (Sym × ℚ)) (k : Sym) (v : ℚ)
    (hv : 0 ≤ v) (hd : ∀ s, 0 ≤ dictGetD d s) :
    ∀ s, 0 ≤ dictGetD (dictSet d k v) s := by
  intro s
  by_cases hs : s = k
  · subst hs
    simp [dictGetD_dictSet_self, hv]
  · rw [dictGetD, dictGet_dictSet_ne _ _ _ _ hs]
    exact hd s

theorem execute_trade_step_invariant
    (md : MarketData) (p : Portfolio) (o : Order) (p1 : Portfolio) (b : Bool)
    (hrate : 0 ≤ p.commission_rate)
    (hmd : PricesPos md)
    (hq : ∃ q, o.params.portion = some q ∧ 0 ≤ q ∧ q ≤ 1)
    (hinv : Invariant p)
    (hrun : execute_trade md p o = Except.ok (p1, b)) :
    Invariant p1 ∧ p1.commission_rate = p.commission_rate := by
  obtain ⟨q, hqeq, hq0, hq1⟩ := hq
  obtain ⟨hcash, hpos⟩ := hinv
  by_cases hb : o.otype = "buy_market"
  · rw [execute_trade, if_pos hb, buyMarket] at hrun
    by_cases hrej : p.cash ≤ 5 ∨
        p.cash < buyNotional p o.params * (1 + p.commission_rate) ∨
        buyNotional p o.params ≤ 5
    · rw [if_pos hrej] at hrun
      simp only [Except.ok.injEq, Prod.mk.injEq] at hrun
      rw [← hrun.1]
      exact ⟨⟨hcash, hpos⟩, rfl⟩
    · rw [if_neg hrej] at hrun
      push_neg at hrej
      cases hpx : md o.symbol o.timestamp with
      | none => rw [hpx] at hrun; exact absurd hrun (by simp)
      | some price =>
        rw [hpx] at hrun
        simp only [Except.ok.injEq, Prod.mk.injEq] at hrun
        have husd : 0 ≤ buyNotional p o.params := by
          simp only [buyNotional, hqeq]
          exact mul_nonneg hq0 hcash
        have hprice : 0 < price := hmd _ _ _ hpx
        have hquant : 0 ≤ buyNotional p o.params / price := div_nonneg husd hprice.le
        have hpos0 : ∀ s, 0 ≤ dictGetD
            (match dictGet p.positions o.symbol with
             | none => dictSet p.positions o.symbol 0
             | some _ => p.positions) s := by
          cases hd : dictGet p.positions o.symbol with
          | none => exact dictGetD_dictSet_nonneg _ _ _ le_rfl hpos
          | some x => exact hpos
        refine ⟨⟨?_, ?_⟩, ?_⟩
        · rw [← hrun.1]
          show (0:ℚ) ≤ p.cash - buyNotional p o.params * (1 + p.commission_rate)
          linarith [hrej.2.1]
        · rw [← hrun.1]
          intro s
          exact dictGetD_dictSet_nonneg _ _ _
            (add_nonneg (hpos0 o.symbol) hquant) hpos0 s
        · rw [← hrun.1]
  · by_cases hs : o.otype = "sell_market"
    · rw [execute_trade, if_neg hb, if_pos hs, sellMarket] at hrun
      cases hpx : md o.symbol o.timestamp with
      | none => rw [hpx] at hrun; exact absurd hrun (by simp)
      | some price =>
        rw [hpx] at hrun
        have hprice : 0 < price := hmd _ _ _ hpx
        cases hd : dictGet p.positions o.symbol with
        | none =>
          simp only [hd, hqeq] at hrun
          rw [dictGetD_dictSet_self] at hrun
          rw [if_pos (Or.inr (by norm_num))] at hrun
          simp only [Except.ok.injEq, Prod.mk.injEq] at hrun
          rw [← hrun.1]
          exact ⟨⟨hcash, dictGetD_dictSet_nonneg _ _ _ le_rfl hpos⟩, rfl⟩
        | some x =>
          simp only [hd, hqeq] at hrun
          by_cases hrej : dictGetD p.positions o.symbol <
              dictGetD p.positions o.symbol * q ∨
              dictGetD p.positions o.symbol * q * price ≤ 5
          · rw [if_pos hrej] at hrun
            simp only [Except.ok.injEq, Prod.mk.injEq] at hrun
            rw [← hrun.1]
            exact ⟨⟨hcash, hpos⟩, rfl⟩
          · rw [if_neg hrej] at hrun
            push_neg at hrej
            simp only [Except.ok.injEq, Prod.mk.injEq] at hrun
            have hheld : 0 ≤ dictGetD p.positions o.symbol := hpos _
            have husd : 0 ≤ dictGetD p.positions o.symbol * q * price :=
              mul_nonneg (mul_nonneg hheld hq0) hprice.le
            refine ⟨⟨?_, ?_⟩, ?_⟩
            · rw [← hrun.1]
              show (0:ℚ) ≤ p.cash + dictGetD p.positions o.symbol * q * price
                / (1 + p.commission_rate)
              have : 0 ≤ dictGetD p.positions o.symbol * q * price
                  / (1 + p.commission_rate) := div_nonneg husd (by linarith)
              linarith
            · rw [← hrun.1]
              intro s
              refine dictGetD_dictSet_nonneg _ _ _ ?_ hpos s
              show (0:ℚ) ≤ dictGetD p.positions o.symbol
                - dictGetD p.positions o.symbol * q
              nlinarith [mul_nonneg hheld (sub_nonneg.mpr hq1)]
            · rw [← hrun.1]
    · have hnoop : execute_trade md p o = Except.ok (p, false) ∨
          ∃ e, execute_trade md p o = Except.error e := by
        rw [execute_trade, if_neg hb, if_neg hs]
        by_cases h3 : o.otype = "buy_limit"
        · exact Or.inr ⟨_, by rw [if_pos h3]⟩
        · rw [if_neg h3]
          by_cases h4 : o.otype = "sell_limit"
          · exact Or.inr ⟨_, by rw [if_pos h4]⟩
          · rw [if_neg h4]
            by_cases h5 : o.otype = "oco"
            · exact Or.inr ⟨_, by rw [if_pos h5]⟩
            · exact Or.inl (by rw [if_neg h5])
      rcases hnoop with h | ⟨e, h⟩
      · rw [h] at hrun
        simp only [Except.ok.injEq, Prod.mk.injEq] at hrun
        rw [← hrun.1]
        exact ⟨⟨hcash, hpos⟩, rfl⟩
      · rw [h] at hrun
        exact absurd hrun (by simp)

theorem runTrades_invariant_aux
    (md : MarketData) (hmd : PricesPos md) :
    ∀ (pre : List Order) (p0 : Portfolio), 0 ≤ p0.commission_rate →
      (∀ o ∈ pre, ∃ q, o.params.portion = some q ∧ 0 ≤ q ∧ q ≤ 1) →
      Invariant p0 →
      ∀ p1, runTrades md p0 pre = Except.ok p1 →
        Invariant p1 ∧ p1.commission_rate = p0.commission_rate := by
  intro pre
  induction pre with
  | nil =>
    intro p0 _ _ hinv p1 hrun
    simp only [runTrades, Except.ok.injEq] at hrun
    rw [← hrun]
    exact ⟨hinv, rfl⟩
  | cons o rest ih =>
    intro p0 hrate hport hinv p1 hrun
    rw [runTrades] at hrun
    cases hstep : execute_trade md p0 o with
    | error e => rw [hstep] at hrun; exact absurd hrun (by simp)
    | ok pb =>
      rw [hstep] at hrun
      obtain ⟨p2, b⟩ := pb
      have h2 := execute_trade_step_invariant md p0 o p2 b hrate hmd
        (hport o (by simp)) hinv hstep
      have h3 := ih p2 (h2.2 ▸ hrate) (fun o2 ho2 => hport o2 (by simp [ho2]))
        h2.1 p1 hrun
      exact ⟨h3.1, h3.2.trans h2.2⟩

/-- Claim C2: starting from any portfolio satisfying the invariant
(cash ≥ 0, every position quantity ≥ 0), any sequence of `execute_trade`
calls whose orders carry a portion in `[0, 1]` keeps cash ≥ 0 and every
position quantity ≥ 0 after each call (each successfully completed prefix
of the sequence), given non-negative commission rate and positive candle
prices. -/
theorem portfolio_no_shorting_no_margin
    (md : MarketData) (p0 : Portfolio) (orders : List Order)
    (hrate : 0 ≤ p0.commission_rate)
    (hmd : PricesPos md)
    (hport : ∀ o ∈ orders, ∃ q, o.params.portion = some q ∧ 0 ≤ q ∧ q ≤ 1)
    (hinv : Invariant p0) :
    ∀ pre suf p1, orders = pre ++ suf → runTrades md p0 pre = Except.ok p1 →
      Invariant p1 := by
  intro pre suf p1 hsplit hrun
  have hpre : ∀ o ∈ pre, ∃ q, o.params.portion = some q ∧ 0 ≤ q ∧ q ≤ 1 :=
    fun o ho => hport o (hsplit ▸ List.mem_append_left _ ho)
  exact (runTrades_invariant_aux md hmd pre p0 hrate hpre hinv p1 hrun).1

def pW : Portfolio :=
  ⟨1000, 0, ["BTC"], 500, [("BTC", 5)], [], [⟨0, "BTC", "buy", 100, 500, 0⟩], [], 0⟩

theorem portfolio_no_shorting_no_margin_witness : Invariant pW := by
  have hrun : runTrades mdK pK [oK] = Except.ok pW := by
    norm_num [runTrades, execute_trade, buyMarket, buyNotional, mdK, pK, oK, pW,
      initPortfolio, dictGet, dictSet, dictGetD]
  exact portfolio_no_shorting_no_margin mdK pK [oK]
    (by norm_num [pK, initPortfolio])
    (fun s t q hq => by rw [← Option.some.inj hq]; norm_num)
    (by
      intro o ho
      rw [List.mem_singleton] at ho
      exact ⟨1/2, by rw [ho]; rfl, by norm_num, by norm_num⟩)
    ⟨by norm_num [pK, initPortfolio], fun s => by simp [pK, initPortfolio, dictGetD, dictGet]⟩
    [oK] [] pW rfl hrun

/-- `BuyAndHoldStrategy.parameters`, as key → declared default. -/
def bh_parameters : List (Sym × ℚ) :=
  [("portion_buy", 1/2), ("portion_sell", 1)]

/-- `BuyAndHoldStrategy.set_params`: all declared defaults when any
declared key is missing from the caller mapping, otherwise the caller
mapping unchanged. -/
def bh_set_params (params : List (Sym × ℚ)) : List (Sym × ℚ) :=
  if bh_parameters.all (fun kv => dictContains params kv.1) then params
  else bh_parameters

/-- `DCA_strategy.parameters`. -/
def dca_parameters : List (Sym × ℚ) :=
  [("daily_investment", 0), ("monthly_investment", 100)]

/-- `DCA_strategy.set_params`. -/
def dca_set_params (params : List (Sym × ℚ)) : List (Sym × ℚ) :=
  if dca_parameters.all (fun kv => dictContains params kv.1) then params
  else dca_parameters

/-- `RSIStrategy.parameters`. -/
def rsi_parameters : List (Sym × ℚ) :=
  [("rsi_period", 14), ("rsi_oversold", 30), ("rsi_overbought", 70)]

/-- `RSIStrategy.risk_parameters`. -/
def rsi_risk_parameters : List (Sym × ℚ) :=
  [("portion_buy", 1/2), ("portion_sell", 1/2), ("stop_loss", 1/20), ("duration", 4)]

/-- `RSIStrategy.set_params`: the completeness test ranges over
`self.parameters` only; when a declared key is missing the source
evaluates `self.parameters.items() + self.risk_parameters.items()`, and in
Python 3 `dict_items + dict_items` is an unsupported operand combination,
so the defaults branch raises `TypeError` instead of building the defaults
dict. -/
def rsi_set_params (params : List (Sym × ℚ)) : Except String (List (Sym × ℚ)) :=
  if rsi_parameters.all (fun kv => dictContains params kv.1) then Except.ok params
  else Except.error "TypeError"

/-- Claim C4 (code bug): BuyAndHold and DCA do fall back to all declared
defaults when a declared key is missing and keep a complete caller mapping
unchanged (no mixing), but the RSI strategy's defaults branch raises
`TypeError` (`dict_items + dict_items`) instead of producing the declared
defaults, so the claim fails for the RSI strategy. -/
theorem set_params_all_or_nothing_rsi_crash :
    (bh_set_params [("portion_buy", 1)] = bh_parameters) ∧
    (bh_set_params [("portion_sell", 1), ("portion_buy", 1)]
      = [("portion_sell", 1), ("portion_buy", 1)]) ∧
    (dca_set_params [("daily_investment", 7)] = dca_parameters) ∧
    (rsi_set_params [("rsi_period", 10), ("rsi_oversold", 20)]
      = Except.error "TypeError") :=
  ⟨rfl, rfl, rfl, rfl⟩

/-- `(max(timestamp) - min(timestamp)).days` for epoch-second timestamps:
pandas `Timedelta.days` floors the span to whole 86400-second days. -/
def elapsedDays (tmin tmax : ℤ) : Int :=
  Int.ediv (tmax - tmin) 86400

/-- `PerformanceMetrics._calculate_return_metrics`, modelled up to the
value of the annualized return: `total_return` is exact arithmetic, and
the float power `(1 + total_return) ** (365 / days)` has its control flow
kept — an empty curve leaves `annualized_return` unassigned (Python
`NameError` at the return statement), and zero elapsed days raises
`ZeroDivisionError` in `365 / days`.  Returns `total_return_pct`. -/
def calc_return_metrics (initial final : ℚ) (graphTs : List ℤ) : Except String ℚ :=
  let total_return := (final - initial) / initial
  match graphTs with
  | [] => Except.error "NameError"
  | t :: rest =>
    let tmax := rest.foldl max t
    let tmin := rest.foldl min t
    if elapsedDays tmin tmax = 0 then Except.error "ZeroDivisionError"
    else Except.ok (total_return * 100)

/-- Claim C8 (code bug): the annualized-return computation is not guarded
against zero elapsed calendar days — an equity curve spanning less than
one day (here two points one hour apart) makes
`_calculate_return_metrics` raise `ZeroDivisionError` in `365 / days`
instead of yielding a defined result. -/
theorem return_metrics_zero_days_division :
    calc_return_metrics 1000 1100 [0, 3600] = Except.error "ZeroDivisionError" := by
  rfl

/-- A single symbol's candle series restricted to `(timestamp, close)`,
stored ascending as handed to the engine (range-filtered cache rows). -/
abbrev Series := List (ℤ × ℚ)

/-- `df.loc[ts]['close']` on a series. -/
def closeAt (series : Series) (ts : ℤ) : Option ℚ :=
  match series with
  | [] => none
  | b :: rest => if b.1 = ts then some b.2 else closeAt rest ts

/-- The engine's `market_data` dict: symbol → series, insertion-ordered. -/
abbrev MarketTable := List (Sym × Series)

/-- `self.market_data[symbol]` dict lookup. -/
def findSeries : MarketTable → Sym → Option Series
  | [], _ => none
  | sd :: rest, s => if sd.1 = s then some sd.2 else findSeries rest s

/-- `self.market_data[symbol].loc[timestamp]['close']` as a `MarketData`
lookup (a missing symbol or a missing candle is a `KeyError`). -/
def mdOf (data : MarketTable) : MarketData := fun s t =>
  match findSeries data s with
  | none => none
  | some series => closeAt series t

/-- `Portfolio.set_market_data`: fixes the benchmark allocation
`initial_capital / first_close / len(self.symbols)` per symbol (the
`current_prices` cache it also sets is only read by the summary fields not
under study); an empty series makes `iloc[0]` raise `IndexError`, an empty
symbol list makes the division raise `ZeroDivisionError`. -/
def set_market_data (data : MarketTable) (p : Portfolio) : Except String Portfolio := do
  let n : ℚ := p.symbols.length
  let bench ← data.foldlM (fun (acc : List (Sym × ℚ)) sd =>
    match sd.2 with
    | [] => Except.error "IndexError"
    | b :: _ =>
      if n = 0 then Except.error "ZeroDivisionError"
      else Except.ok (acc ++ [(sd.1, p.initial_capital / b.2 / n)])) []
  Except.ok { p with benchmark_positions := bench }

/-- Shared loop of `_get_total_usd_value` / `_get_benchmark_value`:
`acc + Σ quantity × close(symbol, ts)` over a positions dict. -/
def sumPositions (data : MarketTable) (entries : List (Sym × ℚ)) (ts : ℤ) (acc : ℚ) :
    Except String ℚ :=
  match entries with
  | [] => Except.ok acc
  | e :: rest =>
    match mdOf data e.1 ts with
    | none => Except.error "KeyError"
    | some c => sumPositions data rest ts (acc + e.2 * c)

/-- `Portfolio._get_total_usd_value`. -/
def totalUsdValue (data : MarketTable) (p : Portfolio) (ts : ℤ) : Except String ℚ :=
  sumPositions data p.positions ts p.cash

/-- `Portfolio._get_benchmark_value`. -/
def benchmarkValue (data : MarketTable) (p : Portfolio) (ts : ℤ) : Except String ℚ :=
  sumPositions data p.benchmark_positions ts 0

/-- The equity-curve point `update_graph_data` computes at a tick: the
portfolio valued as it stands. -/
def equitySample (data : MarketTable) (p : Portfolio) (ts : ℤ) :
    Except String EquityPoint := do
  let tv ← totalUsdValue data p ts
  let bv ← benchmarkValue data p ts
  Except.ok ⟨ts, tv, bv⟩

/-- `Portfolio.update_graph_data`: appends one equity-curve point valuing
the portfolio as it stands. -/
def update_graph_data (data : MarketTable) (p : Portfolio) (ts : ℤ) :
    Except String Portfolio := do
  let pt ← equitySample data p ts
  Except.ok { p with graph := p.graph ++ [pt] }

/-- One row of a strategy's signal table (index timestamp plus the signal
dict's `type` and `params`). -/
structure Signal where
  timestamp : ℤ
  stype : String
  params : TradeParams
  deriving Repr, DecidableEq

/-- `BuyAndHoldStrategy.generate_signals`: a `buy_market` row at the first
bar and a `sell_market` row at the last bar (on a one-bar series the sell
assignment overwrites the buy); missing params keys are `KeyError`, an
empty series makes `index[0]` raise `IndexError`. -/
def bh_generate_signals (params : List (Sym × ℚ)) (series : Series) :
    Except String (List Signal) :=
  match dictGet params "portion_buy", dictGet params "portion_sell" with
  | some pbuy, some psell =>
    match series with
    | [] => Except.error "IndexError"
    | first :: rest =>
      match rest.getLast? with
      | none => Except.ok [⟨first.1, "sell_market", ⟨some psell, none⟩⟩]
      | some lastB =>
        Except.ok [⟨first.1, "buy_market", ⟨some pbuy, none⟩⟩,
                   ⟨lastB.1, "sell_market", ⟨some psell, none⟩⟩]
  | _, _ => Except.error "KeyError"

/-- Lines 41-46 of `run_backtest`: per-symbol signal tables tagged with
their symbol and concatenated in dict order. -/
def signalsTable (gen : Series → Except String (List Signal)) (data : MarketTable) :
    Except String (List (Sym × Signal)) :=
  match data with
  | [] => Except.ok []
  | sd :: rest => do
    let sigs ← gen sd.2
    let tailTable ← signalsTable gen rest
    Except.ok (sigs.map (fun sg => (sd.1, sg)) ++ tailTable)

/-- `pd.date_range(start, stop, freq=step)`: the regular tick grid
`start, start+step, …` up to `stop`. -/
def simGrid (start stop step : ℤ) : List ℤ :=
  if step ≤ 0 ∨ stop < start then []
  else (List.range (((stop - start).ediv step).toNat + 1)).map
    (fun k : ℕ => start + (k : ℤ) * step)

/-- `index.min()` of one series. -/
def seriesMinTs : Series → Except String ℤ
  | [] => Except.error "ValueError"
  | b :: rest => Except.ok (rest.foldl (fun m x => min m x.1) b.1)

/-- `index.max()` of one series. -/
def seriesMaxTs : Series → Except String ℤ
  | [] => Except.error "ValueError"
  | b :: rest => Except.ok (rest.foldl (fun m x => max m x.1) b.1)

/-- `start_ts = min(market_data[symbol].index.min() for symbol in ...)`. -/
def globalStartTs (data : MarketTable) : Except String ℤ :=
  match data with
  | [] => Except.error "ValueError"
  | sd :: rest => do
    let m0 ← seriesMinTs sd.2
    rest.foldlM (fun m sd2 => do
      let m2 ← seriesMinTs sd2.2
      Except.ok (min m m2)) m0

/-- `end_ts = max(market_data[symbol].index.max() for symbol in ...)`. -/
def globalEndTs (data : MarketTable) : Except String ℤ :=
  match data with
  | [] => Except.error "ValueError"
  | sd :: rest => do
    let m0 ← seriesMaxTs sd.2
    rest.foldlM (fun m sd2 => do
      let m2 ← seriesMaxTs sd2.2
      Except.ok (max m m2)) m0

/-- The body of the signal loop at one tick: build the trade dict from the
signal row and run `execute_trade` (a rejected order is dropped and the
run continues). -/
def execRow (data : MarketTable) (ts : ℤ) (p : Portfolio) (row : Sym × Signal) :
    Except String Portfolio :=
  match execute_trade (mdOf data) p ⟨row.1, ts, row.2.stype, row.2.params⟩ with
  | Except.error e => Except.error e
  | Except.ok (p1, _) => Except.ok p1

/-- One iteration of the tick loop in `run_backtest`: sample the equity
curve first, then execute — in signal-table row order — every signal whose
timestamp equals the tick. -/
def processTick (data : MarketTable) (sigs : List (Sym × Signal)) (p : Portfolio)
    (ts : ℤ) : Except String Portfolio := do
  let p1 ← update_graph_data data p ts
  (sigs.filter (fun row => decide (row.2.timestamp = ts))).foldlM (execRow data ts) p1

/-- The tick loop of `run_backtest` over a list of ticks. -/
def runTicks (data : MarketTable) (sigs : List (Sym × Signal)) :
    Portfolio → List ℤ → Except String Portfolio
  | p, [] => Except.ok p
  | p, t :: ts =>
    match processTick data sigs p t with
    | Except.error e => Except.error e
    | Except.ok p1 => runTicks data sigs p1 ts

/-- The fields of `Portfolio.get_summary` the claims read (the remaining
fields — active position book and per-position values — are derived data
not under study). -/
structure Summary where
  initial_capital : ℚ
  final_value : ℚ
  cash : ℚ
  total_trades : ℕ
  total_commission : ℚ
  deriving Repr, DecidableEq

/-- `Portfolio.get_summary`: `final_value` is the total USD valuation at
the last index of the first symbol's frame. -/
def get_summary (data : MarketTable) (p : Portfolio) : Except String Summary :=
  match data with
  | [] => Except.error "IndexError"
  | sd :: _ =>
    match sd.2.getLast? with
    | none => Except.error "IndexError"
    | some lastB => do
      let fv ← totalUsdValue data p lastB.1
      Except.ok ⟨p.initial_capital, fv, p.cash, p.trades.length, p.total_commission⟩

/-- `BacktestEngine.run_backtest`'s result dict. -/
structure BacktestResult where
  summary : Summary
  trades_history : List TradeRec
  graph_data : List EquityPoint
  deriving Repr, DecidableEq

/-- `BacktestEngine.run_backtest`, with the configured strategy's
`generate_signals` passed as `gen` and the engine's timeframe as `step`. -/
def run_backtest (gen : Series → Except String (List Signal)) (step : ℤ)
    (data : MarketTable) (p : Portfolio) : Except String BacktestResult := do
  let p1 ← set_market_data data p
  let sigs ← signalsTable gen data
  let start ← globalStartTs data
  let stop ← globalEndTs data
  let pf ← runTicks data sigs p1 (simGrid start stop step)
  let s ← get_summary data pf
  Except.ok ⟨s, pf.trades, pf.graph⟩

/-- Scenario fixtures for the Buy&Hold end-to-end run: one symbol, daily
closes 100, 110, 121 (timestamps in epoch seconds, one day apart),
initial_capital 1000, commission 0, portions 1.0. -/
def pInitC3 : Portfolio := initPortfolio 1000 0 ["BTC"]

def dataC3 : MarketTable := [("BTC", [(0, 100), (86400, 110), (172800, 121)])]

def genC3 : Series → Except String (List Signal) :=
  bh_generate_signals (bh_set_params [("portion_buy", 1), ("portion_sell", 1)])

/-- State after `set_market_data`: benchmark = 1000 / 100 / 1 = 10 units. -/
def pSetC3 : Portfolio := ⟨1000, 0, ["BTC"], 1000, [], [("BTC", 10)], [], [], 0⟩

def sigsC3 : List (Sym × Signal) :=
  [("BTC", ⟨0, "buy_market", ⟨some 1, none⟩⟩),
   ("BTC", ⟨172800, "sell_market", ⟨some 1, none⟩⟩)]

/-- State after the first tick: the buy filled 10 units at 100, cash 0. -/
def pMidC3 : Portfolio :=
  ⟨1000, 0, ["BTC"], 0, [("BTC", 10)], [("BTC", 10)],
   [⟨0, "BTC", "buy", 100, 1000, 0⟩], [⟨0, 1000, 1000⟩], 0⟩

def pFinC3 : Portfolio :=
  ⟨1000, 0, ["BTC"], 1210, [("BTC", 0)], [("BTC", 10)],
   [⟨0, "BTC", "buy", 100, 1000, 0⟩, ⟨172800, "BTC", "sell", 121, 1210, 0⟩],
   [⟨0, 1000, 1000⟩, ⟨86400, 1100, 1100⟩, ⟨172800, 1210, 1210⟩], 0⟩

def resC3 : BacktestResult :=
  ⟨⟨1000, 1210, 1210, 2, 0⟩,
   [⟨0, "BTC", "buy", 100, 1000, 0⟩, ⟨172800, "BTC", "sell", 121, 1210, 0⟩],
   [⟨0, 1000, 1000⟩, ⟨86400, 1100, 1100⟩, ⟨172800, 1210, 1210⟩]⟩

/-- Claim C3: Buy&Hold on closes [100, 110, 121] with initial_capital 1000,
commission 0, portions 1.0: the first bar's buy fills 10 units (1000 USD at
price 100) leaving cash 0, the last bar's sell leaves cash 1210, the final
value is 1210, and the return metrics give total_return_pct = 21. -/
theorem buy_and_hold_end_to_end_scenario :
    run_backtest genC3 86400 dataC3 pInitC3 = Except.ok resC3 ∧
    (processTick dataC3 sigsC3 pSetC3 0 = Except.ok pMidC3 ∧
      pMidC3.cash = 0 ∧ dictGetD pMidC3.positions "BTC" = 10 ∧
      pMidC3.trades = [⟨0, "BTC", "buy", 100, 1000, 0⟩]) ∧
    resC3.summary.cash = 1210 ∧ resC3.summary.final_value = 1210 ∧
    calc_return_metrics resC3.summary.initial_capital resC3.summary.final_value
      (resC3.graph_data.map EquityPoint.timestamp) = Except.ok 21 := by
  have h1 : set_market_data dataC3 pInitC3 = Except.ok pSetC3 := by
    norm_num [set_market_data, dataC3, pInitC3, pSetC3, initPortfolio,
      Bind.bind, Except.bind, pure, Except.pure]
  have h2 : signalsTable genC3 dataC3 = Except.ok sigsC3 := by
    norm_num [signalsTable, genC3, dataC3, sigsC3, bh_generate_signals,
      bh_set_params, bh_parameters, dictGet, dictContains,
      Bind.bind, Except.bind, pure, Except.pure]
  have h3 : globalStartTs dataC3 = Except.ok 0 := by decide
  have h4 : globalEndTs dataC3 = Except.ok 172800 := by decide
  have h5 : simGrid 0 172800 86400 = [0, 86400, 172800] := by decide
  have h6 : runTicks dataC3 sigsC3 pSetC3 [0, 86400, 172800] = Except.ok pFinC3 := by
    norm_num [runTicks, processTick, update_graph_data, equitySample, totalUsdValue,
      benchmarkValue, sumPositions, mdOf, findSeries, closeAt, execRow,
      execute_trade, buyMarket, sellMarket, buyNotional, dictGet, dictSet,
      dictGetD, dataC3, sigsC3, pSetC3, pFinC3, List.filter, List.foldlM,
      Bind.bind, Except.bind, pure, Except.pure]
    decide
  have h7 : get_summary dataC3 pFinC3
      = Except.ok (⟨1000, 1210, 1210, 2, 0⟩ : Summary) := by
    norm_num [get_summary, totalUsdValue, sumPositions, mdOf, findSeries,
      closeAt, dictGet, dataC3, pFinC3, Bind.bind, Except.bind, pure, Except.pure]
  have hmid : processTick dataC3 sigsC3 pSetC3 0 = Except.ok pMidC3 := by
    norm_num [processTick, update_graph_data, equitySample, totalUsdValue, benchmarkValue,
      sumPositions, mdOf, findSeries, closeAt, execRow, execute_trade,
      buyMarket, buyNotional, dictGet, dictSet, dictGetD, dataC3, sigsC3,
      pSetC3, pMidC3, List.filter, List.foldlM,
      Bind.bind, Except.bind, pure, Except.pure]
  refine ⟨?_, ⟨hmid, rfl, by decide, rfl⟩, rfl, rfl, ?_⟩
  · simp only [run_backtest, Bind.bind, Except.bind, h1, h2, h3, h4, h5, h6, h7]
    rfl
  · norm_num [calc_return_metrics, elapsedDays, Int.ediv, resC3]

theorem buyMarket_graph_eq (md : MarketData) (p : Portfolio) (o : Order)
    (p1 : Portfolio) (r : Option TradeRec)
    (h : buyMarket md p o = Except.ok (p1, r)) : p1.graph = p.graph := by
  rw [buyMarket] at h
  by_cases hc : p.cash ≤ 5 ∨
      p.cash < buyNotional p o.params * (1 + p.commission_rate) ∨
      buyNotional p o.params ≤ 5
  · rw [if_pos hc] at h
    simp only [Except.ok.injEq, Prod.mk.injEq] at h
    rw [← h.1]
  · rw [if_neg hc] at h
    cases hpx : md o.symbol o.timestamp with
    | none => rw [hpx] at h; exact absurd h (by simp)
    | some price =>
      rw [hpx] at h
      simp only [Except.ok.injEq, Prod.mk.injEq] at h
      rw [← h.1]

theorem sellMarket_graph_eq (md : MarketData) (p : Portfolio) (o : Order)
    (p1 : Portfolio) (r : Option TradeRec)
    (h : sellMarket md p o = Except.ok (p1, r)) : p1.graph = p.graph := by
  rw [sellMarket] at h
  cases hpx : md o.symbol o.timestamp with
  | none => rw [hpx] at h; exact absurd h (by simp)
  | some price =>
    rw [hpx] at h
    cases hq : o.params.portion with
    | none =>
      cases hd : dictGet p.positions o.symbol with
      | none =>
        simp only [hd, hq] at h
        exact absurd h (by simp)
      | some x =>
        simp only [hd, hq] at h
        exact absurd h (by simp)
    | some q =>
      cases hd : dictGet p.positions o.symbol with
      | none =>
        simp only [hd, hq] at h
        split at h
        · simp only [Except.ok.injEq, Prod.mk.injEq] at h
          rw [← h.1]
        · simp only [Except.ok.injEq, Prod.mk.injEq] at h
          rw [← h.1]
      | some x =>
        simp only [hd, hq] at h
        split at h
        · simp only [Except.ok.injEq, Prod.mk.injEq] at h
          rw [← h.1]
        · simp only [Except.ok.injEq, Prod.mk.injEq] at h
          rw [← h.1]

theorem execute_trade_graph_eq (md : MarketData) (p : Portfolio) (o : Order)
    (p1 : Portfolio) (b : Bool)
    (h : execute_trade md p o = Except.ok (p1, b)) : p1.graph = p.graph := by
  unfold execute_trade at h
  split at h
  · cases hbm : buyMarket md p o with
    | error e => rw [hbm] at h; exact absurd h (by simp)
    | ok pr =>
      obtain ⟨p2, r⟩ := pr
      rw [hbm] at h
      have hg := buyMarket_graph_eq md p o p2 r hbm
      cases r with
      | none =>
        simp only [Except.ok.injEq, Prod.mk.injEq] at h
        rw [← h.1]; exact hg
      | some rr =>
        simp only [Except.ok.injEq, Prod.mk.injEq] at h
        rw [← h.1]; exact hg
  · split at h
    · cases hbm : sellMarket md p o with
      | error e => rw [hbm] at h; exact absurd h (by simp)
      | ok pr =>
        obtain ⟨p2, r⟩ := pr
        rw [hbm] at h
        have hg := sellMarket_graph_eq md p o p2 r hbm
        cases r with
        | none =>
          simp only [Except.ok.injEq, Prod.mk.injEq] at h
          rw [← h.1]; exact hg
        | some rr =>
          simp only [Except.ok.injEq, Prod.mk.injEq] at h
          rw [← h.1]; exact hg
    · split at h
      · exact absurd h (by simp)
      · split at h
        · exact absurd h (by simp)
        · split at h
          · exact absurd h (by simp)
          · simp only [Except.ok.injEq, Prod.mk.injEq] at h
            rw [← h.1]

theorem foldExec_graph_eq (data : MarketTable) (ts : ℤ) :
    ∀ (rows : List (Sym × Signal)) (p p1 : Portfolio),
      rows.foldlM (execRow data ts) p = Except.ok p1 → p1.graph = p.graph := by
  intro rows
  induction rows with
  | nil =>
    intro p p1 h
    simp only [List.foldlM, pure, Except.pure, Except.ok.injEq] at h
    rw [h]
  | cons row rest ih =>
    intro p p1 h
    rw [List.foldlM_cons] at h
    cases hrow : execRow data ts p row with
    | error e =>
      rw [hrow] at h
      exact absurd h (by simp [Bind.bind, Except.bind])
    | ok p2 =>
      rw [hrow] at h
      simp only [Bind.bind, Except.bind] at h
      have h2 := ih p2 p1 h
      unfold execRow at hrow
      cases het : execute_trade (mdOf data) p
          ⟨row.1, ts, row.2.stype, row.2.params⟩ with
      | error e => rw [het] at hrow; exact absurd hrow (by simp)
      | ok pb =>
        obtain ⟨p3, b⟩ := pb
        rw [het] at hrow
        simp only [Except.ok.injEq] at hrow
        rw [h2, ← hrow]
        exact execute_trade_graph_eq _ _ _ _ _ het

theorem processTick_graph_append (data : MarketTable) (sigs : List (Sym × Signal))
    (p : Portfolio) (t : ℤ) (p1 : Portfolio)
    (h : processTick data sigs p t = Except.ok p1) :
    ∃ pt, equitySample data p t = Except.ok pt ∧ p1.graph = p.graph ++ [pt] := by
  unfold processTick update_graph_data at h
  cases hes : equitySample data p t with
  | error e =>
    rw [hes] at h
    exact absurd h (by simp [Bind.bind, Except.bind])
  | ok pt =>
    rw [hes] at h
    simp only [Bind.bind, Except.bind, pure, Except.pure] at h
    refine ⟨pt, rfl, ?_⟩
    have := foldExec_graph_eq data t _ _ _ h
    rw [this]

theorem runTicks_graph_spec (data : MarketTable) (sigs : List (Sym × Signal)) :
    ∀ (ticks : List ℤ) (p pf : Portfolio),
      runTicks data sigs p ticks = Except.ok pf →
      pf.graph.length = p.graph.length + ticks.length ∧
      (∃ ext, pf.graph = p.graph ++ ext) ∧
      ∀ k (hk : k < ticks.length), ∃ pk pt,
        runTicks data sigs p (ticks.take k) = Except.ok pk ∧
        equitySample data pk (ticks.get ⟨k, hk⟩) = Except.ok pt ∧
        pf.graph.getD (p.graph.length + k) ⟨0, 0, 0⟩ = pt := by
  intro ticks
  induction ticks with
  | nil =>
    intro p pf h
    simp only [runTicks, Except.ok.injEq] at h
    subst h
    exact ⟨by simp, ⟨[], by simp⟩, fun k hk => absurd hk (by simp)⟩
  | cons t rest ih =>
    intro p pf h
    rw [runTicks] at h
    cases hpt : processTick data sigs p t with
    | error e => rw [hpt] at h; exact absurd h (by simp)
    | ok p1 =>
      rw [hpt] at h
      obtain ⟨ptv, hes, hg1⟩ := processTick_graph_append data sigs p t p1 hpt
      obtain ⟨hlen, ⟨ext, hext⟩, hks⟩ := ih p1 pf h
      have hlen1 : p1.graph.length = p.graph.length + 1 := by
        rw [hg1]; simp
      have hfull : pf.graph = p.graph ++ ([ptv] ++ ext) := by
        rw [hext, hg1, List.append_assoc]
      refine ⟨?_, ⟨[ptv] ++ ext, hfull⟩, ?_⟩
      · rw [hlen, hlen1, List.length_cons]
        omega
      · intro k hk
        cases k with
        | zero =>
          refine ⟨p, ptv, by rw [List.take_zero, runTicks], hes, ?_⟩
          rw [hfull, List.getD_eq_getD_get?, Nat.add_zero,
            List.get?_append_right (le_refl _)]
          simp
        | succ k =>
          have hk2 : k < rest.length := by
            rw [List.length_cons] at hk
            omega
          obtain ⟨pk, pt, hrun, hsmp, hget⟩ := hks k hk2
          refine ⟨pk, pt, ?_, ?_, ?_⟩
          · rw [List.take_succ_cons, runTicks, hpt]
            exact hrun
          · exact hsmp
          · rw [← hget, hlen1]
            have : p.graph.length + (k + 1) = p.graph.length + 1 + k := by omega
            rw [this]

/-- Claim C7: the simulation iterates the regular tick grid of size
`step` from the global earliest to the global latest timestamp, and at
each tick it appends exactly one equity-curve point, valuing the
portfolio exactly as it stands before any signal of that tick has been
executed: the k-th equity point of a run equals `equitySample` of the
state reached by processing only the ticks strictly before the k-th. -/
theorem equity_sampled_before_tick_execution :
    (∀ start stop step : ℤ, 0 < step → start ≤ stop →
      (simGrid start stop step).head? = some start ∧
      ∀ t ∈ simGrid start stop step, start ≤ t ∧ t ≤ stop) ∧
    (∀ start stop step : ℤ, 0 < step → start ≤ stop →
      ∀ k : ℕ, k < (simGrid start stop step).length →
        (simGrid start stop step).getD k 0 = start + (k : ℤ) * step) ∧
    (∀ (data : MarketTable) (sigs : List (Sym × Signal)) (ticks : List ℤ)
        (p pf : Portfolio), runTicks data sigs p ticks = Except.ok pf →
      pf.graph.length = p.graph.length + ticks.length ∧
      ∀ k (hk : k < ticks.length), ∃ pk pt,
        runTicks data sigs p (ticks.take k) = Except.ok pk ∧
        equitySample data pk (ticks.get ⟨k, hk⟩) = Except.ok pt ∧
        pf.graph.getD (p.graph.length + k) ⟨0, 0, 0⟩ = pt) ∧
    (∀ (gen : Series → Except String (List Signal)) (step : ℤ)
        (data : MarketTable) (p : Portfolio) (res : BacktestResult),
      run_backtest gen step data p = Except.ok res →
      ∃ p1 sigs start stop pf,
        set_market_data data p = Except.ok p1 ∧
        signalsTable gen data = Except.ok sigs ∧
        globalStartTs data = Except.ok start ∧
        globalEndTs data = Except.ok stop ∧
        runTicks data sigs p1 (simGrid start stop step) = Except.ok pf ∧
        res.graph_data = pf.graph) := by
  refine ⟨?_, ?_, ?_, ?_⟩
  · intro start stop step hstep hse
    have hc : ¬ (step ≤ 0 ∨ stop < start) := by omega
    constructor
    · rw [simGrid, if_neg hc, List.range_succ_eq_map]
      simp
    · intro t ht
      rw [simGrid, if_neg hc] at ht
      simp only [List.mem_map, List.mem_range] at ht
      obtain ⟨k, hk, rfl⟩ := ht
      have hk0 : (0 : ℤ) ≤ (k : ℤ) := Int.natCast_nonneg k
      have he0 : (0 : ℤ) ≤ (stop - start).ediv step :=
        Int.ediv_nonneg (by omega) (by omega)
      have hkn : (k : ℤ) ≤ (stop - start).ediv step := by
        have : k ≤ ((stop - start).ediv step).toNat := by omega
        calc (k : ℤ) ≤ (((stop - start).ediv step).toNat : ℤ) := by
              exact_mod_cast this
          _ = (stop - start).ediv step := Int.toNat_of_nonneg he0
      constructor
      · have : 0 ≤ (k : ℤ) * step := mul_nonneg hk0 (by omega)
        omega
      · have h1 : (k : ℤ) * step ≤ (stop - start).ediv step * step :=
          mul_le_mul_of_nonneg_right hkn (by omega)
        have h2 : (stop - start).ediv step * step ≤ stop - start :=
          Int.ediv_mul_le _ (by omega)
        omega
  · intro start stop step hstep hse k hk
    have hc : ¬ (step ≤ 0 ∨ stop < start) := by omega
    simp only [simGrid, if_neg hc] at hk ⊢
    rw [List.getD_eq_getElem _ _ hk]
    simp
  · intro data sigs ticks p pf h
    obtain ⟨hlen, _, hks⟩ := runTicks_graph_spec data sigs ticks p pf h
    exact ⟨hlen, hks⟩
  · intro gen step data p res h
    rw [run_backtest] at h
    simp only [Bind.bind, Except.bind] at h
    cases h1 : set_market_data data p with
    | error e => simp only [h1] at h; exact absurd h (by simp)
    | ok p1 =>
      simp only [h1] at h
      cases h2 : signalsTable gen data with
      | error e => simp only [h2] at h; exact absurd h (by simp)
      | ok sigs =>
        simp only [h2] at h
        cases h3 : globalStartTs data with
        | error e => simp only [h3] at h; exact absurd h (by simp)
        | ok start =>
          simp only [h3] at h
          cases h4 : globalEndTs data with
          | error e => simp only [h4] at h; exact absurd h (by simp)
          | ok stop =>
            simp only [h4] at h
            cases h5 : runTicks data sigs p1 (simGrid start stop step) with
            | error e => simp only [h5] at h; exact absurd h (by simp)
            | ok pf =>
              simp only [h5] at h
              cases h6 : get_summary data pf with
              | error e => simp only [h6] at h; exact absurd h (by simp)
              | ok s =>
                simp only [h6, pure, Except.pure, Except.ok.injEq] at h
                exact ⟨p1, sigs, start, stop, pf, rfl, rfl, rfl, rfl, h5,
                  by rw [← h]⟩

def dataC7 : MarketTable := [("ETH", [(0, 10), (100, 20)])]

def pC7 : Portfolio := ⟨1, 0, ["ETH"], 50, [], [], [], [], 0⟩

def pfC7 : Portfolio := ⟨1, 0, ["ETH"], 50, [], [], [], [⟨0, 50, 0⟩, ⟨100, 50, 0⟩], 0⟩

theorem equity_sampled_before_tick_execution_witness :
    (simGrid 0 200 100).head? = some 0 ∧
    (simGrid 0 200 100).getD 1 0 = 0 + (1 : ℕ) * 100 ∧
    pfC7.graph.length = pC7.graph.length + 2 ∧
    (∃ pk pt, runTicks dataC7 [] pC7 ([0, 100].take 1) = Except.ok pk ∧
      equitySample dataC7 pk ([(0 : ℤ), 100].get ⟨1, by norm_num⟩) = Except.ok pt ∧
      pfC7.graph.getD (pC7.graph.length + 1) ⟨0, 0, 0⟩ = pt) := by
  have hrun : runTicks dataC7 [] pC7 [0, 100] = Except.ok pfC7 := by
    norm_num [runTicks, processTick, update_graph_data, equitySample,
      totalUsdValue, benchmarkValue, sumPositions, mdOf, findSeries, closeAt,
      dataC7, pC7, pfC7, List.filter, List.foldlM,
      Bind.bind, Except.bind, pure, Except.pure]
  refine ⟨(equity_sampled_before_tick_execution.1 0 200 100 (by norm_num)
      (by norm_num)).1, ?_, ?_, ?_⟩
  · exact equity_sampled_before_tick_execution.2.1 0 200 100 (by norm_num)
      (by norm_num) 1 (by decide)
  · exact (equity_sampled_before_tick_execution.2.2.1 dataC7 [] [0, 100]
      pC7 pfC7 hrun).1
  · exact (equity_sampled_before_tick_execution.2.2.1 dataC7 [] [0, 100]
      pC7 pfC7 hrun).2 1 (by norm_num)

/-- One row of the cache CSV / of a fetched kline (data_manager.py); `op`
is the `open` column. -/
structure Candle where
  timestamp : ℤ
  op : ℚ
  high : ℚ
  low : ℚ
  close : ℚ
  volume : ℚ
  deriving Repr, DecidableEq

/-- Row order of `sort_values('timestamp')`. -/
def candleLE (a b : Candle) : Prop := a.timestamp ≤ b.timestamp

instance : DecidableRel candleLE := fun a b => Int.decLe a.timestamp b.timestamp

instance : IsTotal Candle candleLE := ⟨fun a b => Int.le_total a.timestamp b.timestamp⟩

instance : IsTrans Candle candleLE := ⟨fun _ _ _ hab hbc => le_trans hab hbc⟩

/-- `df.sort_values('timestamp')`.  The source's sort is applied either to
rows with pairwise distinct timestamps (on load, and after the dedup), so
any sort by timestamp yields the same list; a stable insertion sort
realises it. -/
def sortByTs (l : List Candle) : List Candle := List.insertionSort candleLE l

/-- `df.drop_duplicates(subset=['timestamp'])` with pandas' default
`keep='first'`: keeps the first row of each timestamp in row order.
`seen` accumulates the timestamps already kept. -/
def dropDupTsAux (seen : List ℤ) : List Candle → List Candle
  | [] => []
  | c :: rest =>
    if c.timestamp ∈ seen then dropDupTsAux seen rest
    else c :: dropDupTsAux (c.timestamp :: seen) rest

def dropDupTs (l : List Candle) : List Candle := dropDupTsAux [] l

/-- `DataManager.get_historical_data`, with I/O replaced by explicit data:
`cached` is the CSV content (empty list = no file), `fetched` the pages
`_fetch_from_binance` returns for the missing ranges in order (a fetch
whose request fails mid-way simply returns the rows gathered so far, so
every outcome of the network is some list here).  Returns the persisted
table (`none` when the merged frame is empty and nothing is written) and
the returned window `start_date ≤ timestamp ≤ end_date`. -/
def get_historical_data (cached : List Candle) (fetched : List (List Candle))
    (start_date end_date : ℤ) : Option (List Candle) × List Candle :=
  let df := sortByTs cached
  let df := fetched.foldl (fun acc new => if new.isEmpty then acc else acc ++ new) df
  if df.isEmpty then
    (none, [])
  else
    let cleaned := sortByTs (dropDupTs df)
    (some cleaned,
     cleaned.filter (fun c => start_date ≤ c.timestamp ∧ c.timestamp ≤ end_date))

theorem dropDupTsAux_mem (seen : List ℤ) (l : List Candle) :
    ∀ c ∈ dropDupTsAux seen l, c ∈ l ∧ c.timestamp ∉ seen := by
  induction l generalizing seen with
  | nil => intro c hc; exact absurd hc (by simp [dropDupTsAux])
  | cons a rest ih =>
    intro c hc
    rw [dropDupTsAux] at hc
    by_cases ha : a.timestamp ∈ seen
    · rw [if_pos ha] at hc
      obtain ⟨h1, h2⟩ := ih seen c hc
      exact ⟨List.mem_cons_of_mem a h1, h2⟩
    · rw [if_neg ha] at hc
      rcases List.mem_cons.mp hc with rfl | hc2
      · exact ⟨List.mem_cons_self _ _, ha⟩
      · obtain ⟨h1, h2⟩ := ih (a.timestamp :: seen) c hc2
        refine ⟨List.mem_cons_of_mem a h1, ?_⟩
        intro hs
        exact h2 (List.mem_cons_of_mem _ hs)

theorem dropDupTsAux_nodup (seen : List ℤ) (l : List Candle) :
    ((dropDupTsAux seen l).map Candle.timestamp).Nodup := by
  induction l generalizing seen with
  | nil => simp [dropDupTsAux]
  | cons a rest ih =>
    rw [dropDupTsAux]
    by_cases ha : a.timestamp ∈ seen
    · rw [if_pos ha]; exact ih seen
    · rw [if_neg ha]
      simp only [List.map_cons, List.nodup_cons]
      refine ⟨?_, ih (a.timestamp :: seen)⟩
      intro hmem
      obtain ⟨c, hc, hct⟩ := List.mem_map.mp hmem
      have := (dropDupTsAux_mem _ _ c hc).2
      exact this (hct ▸ List.mem_cons_self _ _)

theorem dropDupTsAux_covers (seen : List ℤ) (l : List Candle) :
    ∀ c ∈ l, c.timestamp ∉ seen →
      c.timestamp ∈ (dropDupTsAux seen l).map Candle.timestamp := by
  induction l generalizing seen with
  | nil => intro c hc; exact absurd hc (by simp)
  | cons a rest ih =>
    intro c hc hcs
    rw [dropDupTsAux]
    by_cases ha : a.timestamp ∈ seen
    · rw [if_pos ha]
      rcases List.mem_cons.mp hc with rfl | hc2
      · exact absurd ha hcs
      · exact ih seen c hc2 hcs
    · rw [if_neg ha]
      simp only [List.map_cons, List.mem_cons]
      rcases List.mem_cons.mp hc with rfl | hc2
      · exact Or.inl rfl
      · by_cases hca : c.timestamp = a.timestamp
        · exact Or.inl hca
        · refine Or.inr (ih (a.timestamp :: seen) c hc2 ?_)
          intro hs
          rcases List.mem_cons.mp hs with h | h
          · exact hca h
          · exact hcs h

theorem dropDupTsAux_split (A B : List Candle) :
    ∀ seen, ∀ c ∈ dropDupTsAux seen (A ++ B),
      c ∈ A ∨ (c ∈ B ∧ c.timestamp ∉ A.map Candle.timestamp) := by
  induction A with
  | nil =>
    intro seen c hc
    exact Or.inr ⟨(dropDupTsAux_mem seen B c hc).1, by simp⟩
  | cons a A2 ih =>
    intro seen c hc
    rw [List.cons_append, dropDupTsAux] at hc
    by_cases ha : a.timestamp ∈ seen
    · rw [if_pos ha] at hc
      rcases ih seen c hc with h | ⟨h1, h2⟩
      · exact Or.inl (List.mem_cons_of_mem a h)
      · refine Or.inr ⟨h1, ?_⟩
        have hcs := (dropDupTsAux_mem seen (A2 ++ B) c hc).2
        simp only [List.map_cons, List.mem_cons]
        rintro (h | h)
        · exact hcs (h ▸ ha)
        · exact h2 h
    · rw [if_neg ha] at hc
      rcases List.mem_cons.mp hc with rfl | hc2
      · exact Or.inl (List.mem_cons_self _ _)
      · rcases ih _ c hc2 with h | ⟨h1, h2⟩
        · exact Or.inl (List.mem_cons_of_mem a h)
        · refine Or.inr ⟨h1, ?_⟩
          have hcs := (dropDupTsAux_mem _ (A2 ++ B) c hc2).2
          simp only [List.map_cons, List.mem_cons]
          rintro (h | h)
          · exact hcs (h ▸ List.mem_cons_self _ _)
          · exact h2 h

theorem foldPages_eq_append (A : List Candle) (fetched : List (List Candle)) :
    fetched.foldl (fun acc new => if new.isEmpty then acc else acc ++ new) A
      = A ++ fetched.foldl
          (fun acc new => if new.isEmpty then acc else acc ++ new) [] := by
  induction fetched generalizing A with
  | nil => simp
  | cons l rest ih =>
    simp only [List.foldl_cons]
    by_cases hl : l.isEmpty
    · rw [if_pos hl, if_pos hl]
      exact ih A
    · rw [if_neg hl, if_neg hl, ih (A ++ l), ih ([] ++ l)]
      simp [List.append_assoc]

theorem foldPages_mem (fetched : List (List Candle)) (c : Candle) :
    (c ∈ fetched.foldl
        (fun acc new => if new.isEmpty then acc else acc ++ new) []) ↔
      ∃ l ∈ fetched, c ∈ l := by
  induction fetched with
  | nil => simp
  | cons l rest ih =>
    rw [List.foldl_cons, foldPages_eq_append]
    by_cases hl : l.isEmpty
    · rw [if_pos hl]
      rw [List.isEmpty_iff] at hl
      subst hl
      simp only [List.nil_append, ih, List.mem_cons]
      constructor
      · rintro ⟨l2, h1, h2⟩
        exact ⟨l2, Or.inr h1, h2⟩
      · rintro ⟨l2, h1 | h1, h2⟩
        · subst h1; exact absurd h2 (by simp)
        · exact ⟨l2, h1, h2⟩
    · rw [if_neg hl]
      simp only [List.nil_append, List.mem_append, ih, List.mem_cons]
      constructor
      · rintro (h | ⟨l2, h1, h2⟩)
        · exact ⟨l, Or.inl rfl, h⟩
        · exact ⟨l2, Or.inr h1, h2⟩
      · rintro ⟨l2, h1 | h1, h2⟩
        · subst h1; exact Or.inl h2
        · exact Or.inr ⟨l2, h1, h2⟩

/-- Claim C5 (amended): the merge de-duplicates by timestamp with the
previously cached (first-written) row winning — pandas
`drop_duplicates(keep='first')` runs on cached rows followed by fetched
rows — the persisted table is sorted ascending with unique timestamps,
covers every cached row's timestamp and every fetched row's timestamp,
and the function returns exactly the persisted rows whose timestamps lie
in `[start_date, end_date]`. -/
theorem get_historical_data_merge_first_wins
    (cached : List Candle) (fetched : List (List Candle)) (a b : ℤ)
    (saved returned : List Candle)
    (h : get_historical_data cached fetched a b = (some saved, returned)) :
    List.Sorted candleLE saved ∧
    (saved.map Candle.timestamp).Nodup ∧
    (∀ c ∈ saved, c ∈ cached ∨
      (c ∈ fetched.join ∧ c.timestamp ∉ cached.map Candle.timestamp)) ∧
    (∀ c ∈ cached, c.timestamp ∈ saved.map Candle.timestamp) ∧
    (∀ l ∈ fetched, ∀ c ∈ l, c.timestamp ∈ saved.map Candle.timestamp) ∧
    returned = saved.filter (fun c => a ≤ c.timestamp ∧ c.timestamp ≤ b) := by
  rw [get_historical_data] at h
  set df := fetched.foldl
    (fun acc new => if new.isEmpty then acc else acc ++ new) (sortByTs cached) with hdf
  by_cases he : df.isEmpty
  · rw [if_pos he] at h
    exact absurd h (by simp)
  · rw [if_neg he] at h
    simp only [Prod.mk.injEq, Option.some.injEq] at h
    obtain ⟨hsaved, hret⟩ := h
    have hsplit : df = sortByTs cached ++ fetched.foldl
        (fun acc new => if new.isEmpty then acc else acc ++ new) [] := by
      rw [hdf, foldPages_eq_append]
    have hperm : List.Perm (sortByTs (dropDupTs df)) (dropDupTs df) :=
      List.perm_insertionSort candleLE (dropDupTs df)
    have hpermC : List.Perm (sortByTs cached) cached :=
      List.perm_insertionSort candleLE cached
    refine ⟨?_, ?_, ?_, ?_, ?_, ?_⟩
    · rw [← hsaved]
      exact List.sorted_insertionSort candleLE (dropDupTs df)
    · rw [← hsaved]
      exact ((hperm.map Candle.timestamp).symm).nodup
        (dropDupTsAux_nodup [] df)
    · intro c hc
      rw [← hsaved] at hc
      have hc2 : c ∈ dropDupTs df := hperm.mem_iff.mp hc
      rw [dropDupTs, hsplit] at hc2
      rcases dropDupTsAux_split _ _ [] c hc2 with h1 | ⟨h1, h2⟩
      · exact Or.inl (hpermC.mem_iff.mp h1)
      · refine Or.inr ⟨?_, ?_⟩
        · obtain ⟨l, hl, hcl⟩ := (foldPages_mem fetched c).mp h1
          exact List.mem_join.mpr ⟨l, hl, hcl⟩
        · intro hmem
          apply h2
          obtain ⟨c2, hc2m, hc2t⟩ := List.mem_map.mp hmem
          exact List.mem_map.mpr ⟨c2, hpermC.mem_iff.mpr hc2m, hc2t⟩
    · intro c hc
      have hcd : c ∈ df := by
        rw [hsplit]
        exact List.mem_append_left _ (hpermC.mem_iff.mpr hc)
      have := dropDupTsAux_covers [] df c hcd (by simp)
      rw [← hsaved]
      obtain ⟨c2, hc2m, hc2t⟩ := List.mem_map.mp this
      exact List.mem_map.mpr ⟨c2, hperm.mem_iff.mpr hc2m, hc2t⟩
    · intro l hl c hc
      have hcd : c ∈ df := by
        rw [hsplit]
        exact List.mem_append_right _ ((foldPages_mem fetched c).mpr ⟨l, hl, hc⟩)
      have := dropDupTsAux_covers [] df c hcd (by simp)
      rw [← hsaved]
      obtain ⟨c2, hc2m, hc2t⟩ := List.mem_map.mp this
      exact List.mem_map.mpr ⟨c2, hperm.mem_iff.mpr hc2m, hc2t⟩
    · rw [← hsaved, ← hret]

def csCached : List Candle := [⟨1, 1, 1, 1, 10, 0⟩]

def csFetched : List (List Candle) := [[⟨1, 2, 2, 2, 20, 5⟩]]

/-- Claim C5, counterexample to "the newly fetched row wins": merging a
fetched row that shares the cached row's timestamp keeps the cached row
(close 10) and drops the fetched one (close 20). -/
theorem merge_keeps_cached_not_fetched :
    get_historical_data csCached csFetched 0 5
      = (some [⟨1, 1, 1, 1, 10, 0⟩], [⟨1, 1, 1, 1, 10, 0⟩]) ∧
    (⟨1, 2, 2, 2, 20, 5⟩ : Candle) ∉ (get_historical_data csCached csFetched 0 5).2 := by
  constructor <;> decide

def c5wCached : List Candle := [⟨3, 1, 1, 1, 30, 0⟩, ⟨1, 1, 1, 1, 10, 0⟩]

def c5wFetched : List (List Candle) := [[⟨2, 2, 2, 2, 20, 5⟩], []]

theorem get_historical_data_merge_first_wins_witness :
    List.Sorted candleLE
      [⟨1, 1, 1, 1, 10, 0⟩, ⟨2, 2, 2, 2, 20, 5⟩, ⟨3, 1, 1, 1, 30, 0⟩] ∧
    (([⟨1, 1, 1, 1, 10, 0⟩, ⟨2, 2, 2, 2, 20, 5⟩,
        ⟨3, 1, 1, 1, 30, 0⟩] : List Candle).map Candle.timestamp).Nodup ∧
    ([⟨1, 1, 1, 1, 10, 0⟩, ⟨2, 2, 2, 2, 20, 5⟩] : List Candle)
      = ([⟨1, 1, 1, 1, 10, 0⟩, ⟨2, 2, 2, 2, 20, 5⟩, ⟨3, 1, 1, 1, 30, 0⟩] : List Candle).filter
          (fun c => 1 ≤ c.timestamp ∧ c.timestamp ≤ 2) := by
  have h := get_historical_data_merge_first_wins c5wCached c5wFetched 1 2
    [⟨1, 1, 1, 1, 10, 0⟩, ⟨2, 2, 2, 2, 20, 5⟩, ⟨3, 1, 1, 1, 30, 0⟩]
    [⟨1, 1, 1, 1, 10, 0⟩, ⟨2, 2, 2, 2, 20, 5⟩] (by decide)
  exact ⟨h.1, h.2.1, h.2.2.2.2.2⟩

/-- Claim C6 (amended): when neither the cache nor the remote source has
any candle for the request, `get_historical_data` persists nothing and
returns an empty result without raising any error (the source defines no
`DataUnavailable` failure at all). -/
theorem no_data_returns_empty (fetched : List (List Candle)) (a b : ℤ)
    (h : ∀ l ∈ fetched, l = []) :
    get_historical_data [] fetched a b = (none, []) := by
  have hfold : fetched.foldl
      (fun acc new => if new.isEmpty then acc else acc ++ new) (sortByTs []) = [] := by
    show fetched.foldl _ [] = []
    induction fetched with
    | nil => rfl
    | cons l rest ih =>
      rw [List.foldl_cons, if_pos (by rw [h l (by simp)]; rfl)]
      exact ih (fun l2 hl2 => h l2 (by simp [hl2]))
  rw [get_historical_data, hfold]
  rfl

/-- Claim C6, counterexample to "fails with DataUnavailable": an empty
cache and a remote returning no rows produce an empty result, not an
error. -/
theorem no_data_no_error_counterexample :
    get_historical_data [] [[]] 0 10 = (none, []) := by
  decide

theorem no_data_returns_empty_witness :
    get_historical_data [] [[], []] 5 99 = (none, []) :=
  no_data_returns_empty [[], []] 5 99 (by decide)

/-- Upward close-to-close move used by TA-Lib's RSI. -/
def gainOf (d : ℚ) : ℚ := if d < 0 then 0 else d

/-- Downward close-to-close move used by TA-Lib's RSI. -/
def lossOf (d : ℚ) : ℚ := if d < 0 then -d else 0

/-- Consecutive close-to-close differences. -/
def diffs : List ℚ → List ℚ
  | [] => []
  | [_] => []
  | a :: b :: rest => (b - a) :: diffs (b :: rest)

/-- TA-Lib's RSI output step: `100·gain/(gain+loss)`, defined as 0 when the
smoothed gain and loss are both zero (TA-Lib's `TA_IS_ZERO` branch; the C
library tests against an epsilon, modelled as exact zero in `ℚ`). -/
def rsiFromAvg (g l : ℚ) : ℚ :=
  if g + l = 0 then 0 else 100 * g / (g + l)

/-- Wilder smoothing loop of TA-Lib's RSI over the remaining diffs. -/
def rsiRun (period : ℕ) : ℚ → ℚ → List ℚ → List ℚ
  | _, _, [] => []
  | pg, pl, d :: rest =>
    let pg2 := (pg * ((period : ℚ) - 1) + gainOf d) / (period : ℚ)
    let pl2 := (pl * ((period : ℚ) - 1) + lossOf d) / (period : ℚ)
    rsiFromAvg pg2 pl2 :: rsiRun period pg2 pl2 rest

/-- `talib.RSI(closes, timeperiod=period)`: the first `period` outputs are
NaN (`none`); the first defined value averages the first `period` diffs,
the rest are Wilder-smoothed.  Too-short input yields all-NaN. -/
def talibRSI (period : ℕ) (closes : List ℚ) : List (Option ℚ) :=
  let ds := diffs closes
  if ds.length < period ∨ period = 0 then closes.map (fun _ => none)
  else
    let initG := ((ds.take period).map gainOf).sum / (period : ℚ)
    let initL := ((ds.take period).map lossOf).sum / (period : ℚ)
    List.replicate period none ++
      (some (rsiFromAvg initG initL) ::
        (rsiRun period initG initL (ds.drop period)).map some)

/-- Loop body of `RSIStrategy.generate_signals` at row `(i, (bar, rsi_i))`:
rows with `i = 0` are skipped (`for i in range(1, len(...))`), a NaN RSI
satisfies neither comparison, RSI ≤ oversold emits a `buy` signal, else
RSI ≥ overbought emits a `sell` signal (each carrying its portion; the
`stop_loss`/`duration`/`close_anyway` payload entries are never read by
the portfolio and are not modelled). -/
def rsiSignalAt (oversold overbought pbuy psell : ℚ)
    (e : ℕ × ((ℤ × ℚ) × Option ℚ)) : Option Signal :=
  if e.1 = 0 then none
  else
    match e.2.2 with
    | none => none
    | some rv =>
      if rv ≤ oversold then some ⟨e.2.1.1, "buy", ⟨some pbuy, none⟩⟩
      else if overbought ≤ rv then some ⟨e.2.1.1, "sell", ⟨some psell, none⟩⟩
      else none

/-- `RSIStrategy.generate_signals` over a `(timestamp, close)` series. -/
def rsi_generate_signals (period : ℕ) (oversold overbought pbuy psell : ℚ)
    (series : Series) : List Signal :=
  let rsi := talibRSI period (series.map Prod.snd)
  ((series.zip rsi).enum).filterMap (rsiSignalAt oversold overbought pbuy psell)

def flat16 : Series :=
  [(0, 100), (1, 100), (2, 100), (3, 100), (4, 100), (5, 100), (6, 100),
   (7, 100), (8, 100), (9, 100), (10, 100), (11, 100), (12, 100), (13, 100),
   (14, 100), (15, 100)]

/-- Claim C9, counterexample to "flat series → zero signals": on a
16-bar constant series with the declared default parameters
(period 14, oversold 30, overbought 70), TA-Lib yields RSI = 0 after the
warm-up window (average gain and loss are both zero), 0 ≤ 30, so the
strategy emits a `buy` signal at bars 14 and 15 — not zero signals. -/
theorem rsi_flat_series_emits_buys :
    rsi_generate_signals 14 30 70 (1/2) (1/2) flat16
      = [⟨14, "buy", ⟨some (1/2), none⟩⟩, ⟨15, "buy", ⟨some (1/2), none⟩⟩] := by
  norm_num [rsi_generate_signals, talibRSI, diffs, rsiRun, rsiFromAvg, gainOf,
    lossOf, rsiSignalAt, flat16, List.enum, List.enumFrom, List.zip,
    List.zipWith, List.filterMap, List.replicate]

theorem diffs_const (c : ℚ) :
    ∀ l : List ℚ, (∀ x ∈ l, x = c) → diffs l = List.replicate (l.length - 1) 0 := by
  intro l
  induction l with
  | nil => intro _; rfl
  | cons a rest ih =>
    intro hall
    cases rest with
    | nil => rfl
    | cons b rest2 =>
      rw [diffs, ih (fun x hx => hall x (List.mem_cons_of_mem a hx))]
      have ha : a = c := hall a (by simp)
      have hb : b = c := hall b (by simp)
      simp [ha, hb, List.replicate_succ]

theorem rsiRun_zeros (period : ℕ) :
    ∀ m, rsiRun period 0 0 (List.replicate m 0) = List.replicate m 0 := by
  intro m
  induction m with
  | zero => rfl
  | succ m ih =>
    rw [List.replicate_succ, rsiRun]
    simp only [gainOf, lossOf, if_neg (lt_irrefl (0 : ℚ)), zero_mul, add_zero,
      zero_div, neg_zero]
    rw [ih]
    simp [rsiFromAvg, List.replicate_succ]

theorem talibRSI_const (period : ℕ) (hper : 1 ≤ period) (c : ℚ) (n : ℕ) :
    talibRSI period (List.replicate n c)
      = if n - 1 < period then List.replicate n none
        else List.replicate period none ++ List.replicate (n - period) (some 0) := by
  rw [talibRSI]
  have hds : diffs (List.replicate n c) = List.replicate (n - 1) 0 := by
    rw [diffs_const c _ (fun x hx => List.eq_of_mem_replicate hx)]
    simp
  rw [hds]
  by_cases hn : n - 1 < period
  · rw [if_pos hn, if_pos (by simp [hn]), List.map_replicate]
  · have hc : ¬ ((List.replicate (n - 1) (0:ℚ)).length < period ∨ period = 0) := by
      simp only [List.length_replicate]
      omega
    rw [if_neg hn, if_neg hc]
    have htake : (List.replicate (n - 1) (0:ℚ)).take period
        = List.replicate period 0 := by
      rw [List.take_replicate]
      congr 1
      omega
    have hdrop : (List.replicate (n - 1) (0:ℚ)).drop period
        = List.replicate (n - 1 - period) 0 := by
      rw [List.drop_replicate]
    rw [htake, hdrop, List.map_replicate, List.map_replicate]
    simp only [gainOf, lossOf, if_neg (lt_irrefl (0 : ℚ)), neg_zero,
      List.sum_replicate, smul_zero, zero_div]
    rw [rsiRun_zeros, List.map_replicate]
    have hz : rsiFromAvg 0 0 = 0 := by simp [rsiFromAvg]
    rw [hz]
    have h2 : some (0 : ℚ) :: List.replicate (n - 1 - period) (some (0:ℚ))
        = List.replicate (n - period) (some 0) := by
      rw [← List.replicate_succ]
      congr 1
      omega
    rw [h2]

theorem filterMap_rsi_none_part (os ob pb ps : ℚ) :
    ∀ (zs : List ((ℤ × ℚ) × Option ℚ)) (k : ℕ),
      (∀ e ∈ zs, e.2 = none) →
      (List.enumFrom k zs).filterMap (rsiSignalAt os ob pb ps) = [] := by
  intro zs
  induction zs with
  | nil => intro k _; rfl
  | cons z rest ih =>
    intro k hall
    rw [List.enumFrom, List.filterMap_cons]
    have hz : z.2 = none := hall z (by simp)
    have hnone : rsiSignalAt os ob pb ps (k, z) = none := by
      rw [rsiSignalAt]
      simp [hz]
    rw [hnone]
    exact ih (k + 1) (fun e he => hall e (by simp [he]))

theorem filterMap_rsi_buy_part (os ob pb ps : ℚ) (hos : 0 ≤ os) :
    ∀ (B : Series) (k : ℕ), 1 ≤ k →
      (List.enumFrom k (B.zip (List.replicate B.length (some (0:ℚ))))).filterMap
          (rsiSignalAt os ob pb ps)
        = B.map (fun bar => ⟨bar.1, "buy", ⟨some pb, none⟩⟩) := by
  intro B
  induction B with
  | nil => intro k _; rfl
  | cons b rest ih =>
    intro k hk
    rw [List.length_cons, List.replicate_succ, List.zip_cons_cons,
      List.enumFrom, List.filterMap_cons]
    have hbuy : rsiSignalAt os ob pb ps (k, (b, some 0))
        = some ⟨b.1, "buy", ⟨some pb, none⟩⟩ := by
      rw [rsiSignalAt]
      simp only [if_neg (show ¬ k = 0 by omega)]
      simp [hos]
    rw [hbuy, List.map_cons, ih (k + 1) (by omega)]

theorem talibRSI_warmup_none (period : ℕ) (closes : List ℚ) (i : ℕ)
    (hi : i < period) (rv : ℚ) :
    (talibRSI period closes)[i]? ≠ some (some rv) := by
  rw [talibRSI]
  by_cases hc : (diffs closes).length < period ∨ period = 0
  · rw [if_pos hc]
    rw [List.getElem?_map]
    intro h
    rcases h2 : closes[i]? with _ | v
    · rw [h2] at h; exact absurd h (by simp)
    · rw [h2] at h; exact absurd h (by simp)
  · rw [if_neg hc]
    show (List.replicate period (none : Option ℚ) ++ _)[i]? ≠ _
    rw [List.getElem?_append_left (by simpa using hi), List.getElem?_replicate,
      if_pos hi]
    simp

theorem enum_eq_enumFrom (l : List α) : l.enum = List.enumFrom 0 l := rfl

/-- Claim C9 (amended): the RSI strategy never emits a signal at any bar
inside the indicator's warm-up window — every emitted signal's timestamp
belongs to a bar at index ≥ rsi_period — but a constant close series does
NOT yield zero signals: TA-Lib defines RSI = 0 there (average gain and
loss are both zero), 0 is at or below any non-negative oversold
threshold, so a buy signal is emitted at every bar outside the warm-up
window. -/
theorem rsi_warmup_silent_and_flat_series_buys :
    (∀ (period : ℕ) (os ob pb ps : ℚ) (series : Series) (s : Signal),
        s ∈ rsi_generate_signals period os ob pb ps series →
        s.timestamp ∈ (series.drop period).map Prod.fst) ∧
    (∀ (period : ℕ) (os ob pb ps c : ℚ) (series : Series),
        1 ≤ period → 0 ≤ os →
        series.map Prod.snd = List.replicate series.length c →
        rsi_generate_signals period os ob pb ps series
          = (series.drop period).map
              (fun bar => ⟨bar.1, "buy", ⟨some pb, none⟩⟩)) := by
  constructor
  · intro period os ob pb ps series s hs
    rw [rsi_generate_signals] at hs
    obtain ⟨e, he, hse⟩ := List.mem_filterMap.mp hs
    obtain ⟨i, bar, r⟩ := e
    have hget := List.mem_enum_iff_getElem?.mp he
    obtain ⟨hbar, hrsi⟩ := List.getElem?_zip_eq_some.mp hget
    rw [rsiSignalAt] at hse
    by_cases hi : i = 0
    · rw [if_pos hi] at hse
      exact absurd hse (by simp)
    · rw [if_neg hi] at hse
      cases r with
      | none => exact absurd hse (by simp)
      | some rv =>
        dsimp only at hse
        have hple : period ≤ i := by
          by_contra hlt
          push_neg at hlt
          exact talibRSI_warmup_none period (series.map Prod.snd) i hlt rv hrsi
        have hts : s.timestamp = bar.1 := by
          by_cases h1 : rv ≤ os
          · rw [if_pos h1] at hse
            cases hse
            rfl
          · rw [if_neg h1] at hse
            by_cases h2 : ob ≤ rv
            · rw [if_pos h2] at hse
              cases hse
              rfl
            · rw [if_neg h2] at hse
              exact absurd hse (by simp)
        rw [hts]
        refine List.mem_map.mpr ⟨bar, ?_, rfl⟩
        refine List.getElem?_mem (n := i - period) ?_
        rw [List.getElem?_drop]
        have hip : period + (i - period) = i := by omega
        rw [hip]
        exact hbar
  · intro period os ob pb ps c series hper hos hflat
    rw [rsi_generate_signals, hflat, talibRSI_const period hper c series.length]
    by_cases hn : series.length - 1 < period
    · rw [if_pos hn]
      have hdrop : series.drop period = [] := List.drop_eq_nil_of_le (by omega)
      rw [hdrop, enum_eq_enumFrom,
        filterMap_rsi_none_part os ob pb ps _ 0 ?hall]
      · rfl
      case hall =>
        intro e he
        obtain ⟨bar, r⟩ := e
        exact List.eq_of_mem_replicate (List.of_mem_zip he).2
    · rw [if_neg hn]
      have hle : period ≤ series.length := by omega
      have hlen_take : (series.take period).length = period := by
        rw [List.length_take]
        omega
      conv_lhs =>
        rw [show series = series.take period ++ series.drop period from
          (List.take_append_drop _ _).symm]
      rw [List.zip_append (by rw [hlen_take, List.length_replicate]),
        List.enum_append, List.filterMap_append, enum_eq_enumFrom,
        filterMap_rsi_none_part os ob pb ps _ 0 ?hall2]
      case hall2 =>
        intro e he
        obtain ⟨bar, r⟩ := e
        exact List.eq_of_mem_replicate (List.of_mem_zip he).2
      rw [List.nil_append]
      have hlz : ((series.take period).zip
          (List.replicate period (none : Option ℚ))).length = period := by
        rw [List.length_zip, hlen_take, List.length_replicate]
        omega
      rw [hlz, List.take_append_drop]
      have hlend : List.replicate (series.length - period) (some (0:ℚ))
          = List.replicate (series.drop period).length (some 0) := by
        rw [List.length_drop]
      rw [hlend]
      exact filterMap_rsi_buy_part os ob pb ps hos (series.drop period) period hper

theorem rsi_warmup_silent_and_flat_series_buys_witness :
    rsi_generate_signals 2 30 70 1 1 [(0, 5), (1, 5), (2, 5), (3, 5)]
      = (([(0, 5), (1, 5), (2, 5), (3, 5)] : Series).drop 2).map
          (fun bar => ⟨bar.1, "buy", ⟨some 1, none⟩⟩) ∧
    (⟨2, "buy", ⟨some (1 : ℚ), none⟩⟩ : Signal).timestamp
      ∈ (([(0, 5), (1, 5), (2, 5), (3, 5)] : Series).drop 2).map Prod.fst := by
  have h2 := rsi_warmup_silent_and_flat_series_buys.2 2 30 70 1 1 5
    [(0, 5), (1, 5), (2, 5), (3, 5)] (by norm_num) (by norm_num) (by decide)
  refine ⟨h2, ?_⟩
  refine rsi_warmup_silent_and_flat_series_buys.1 2 30 70 1 1
    [(0, 5), (1, 5), (2, 5), (3, 5)] _ ?_
  rw [h2]
  decide

end TradingBot
